import Mathlib

/-!
# Verification of the word-game server (`src/server.js`)

A shallow embedding of the server's core logic: the dictionary trie,
rank/score policy, word submission, room join, matchmaking band,
game timer, LP settlement, and persistence write-back.  JavaScript
objects used as string-keyed maps are embedded as association lists
(`List (key × value)`); object-key insertion is an append, assignment
of an existing key is an in-place overwrite.
-/

namespace WordGame

/-! ## Association-list helpers (JS object access `obj[k]`, `obj[k] = v`) -/

/-- Read `obj[k]`: first entry whose key equals `k`. -/
def getKey? {κ α : Type} [DecidableEq κ] : List (κ × α) → κ → Option α
  | [], _ => none
  | (k', v) :: rest, k => if k' = k then some v else getKey? rest k

/-- Write `obj[k] = v`: overwrite the entry of an existing key in place,
else append a new entry (JS object insertion order). -/
def setKey {κ α : Type} [DecidableEq κ] : List (κ × α) → κ → α → List (κ × α)
  | [], k, v => [(k, v)]
  | (k', v') :: rest, k, v =>
    if k' = k then (k, v) :: rest else (k', v') :: setKey rest k v

theorem getKey?_setKey_self {κ α : Type} [DecidableEq κ]
    (l : List (κ × α)) (k : κ) (v : α) :
    getKey? (setKey l k v) k = some v := by
  induction l with
  | nil => simp [setKey, getKey?]
  | cons kv rest ih =>
    obtain ⟨k', v'⟩ := kv
    by_cases hk : k' = k
    · simp [setKey, hk, getKey?]
    · simp [setKey, hk, getKey?, ih]

theorem getKey?_setKey_ne {κ α : Type} [DecidableEq κ]
    (l : List (κ × α)) (k k' : κ) (v : α) (h : k' ≠ k) :
    getKey? (setKey l k v) k' = getKey? l k' := by
  induction l with
  | nil =>
    have hkk : ¬(k = k') := fun hh => h hh.symm
    simp [setKey, getKey?, hkk]
  | cons kv rest ih =>
    obtain ⟨k₀, v₀⟩ := kv
    by_cases hk : k₀ = k
    · subst hk
      have hkk' : ¬(k₀ = k') := fun hh => h hh.symm
      simp [setKey, getKey?, hkk']
    · by_cases hk' : k₀ = k'
      · subst hk'
        simp [setKey, getKey?, hk]
      · simp [setKey, hk, getKey?, hk', ih]

/-- Looking a name up in a list of pairs `(q, f q)` built from a member list. -/
theorem getKey?_map_pair {α : Type} (f : String → α) (ls : List String)
    (p : String) (hp : p ∈ ls) :
    getKey? (ls.map (fun q => (q, f q))) p = some (f p) := by
  induction ls with
  | nil => simp at hp
  | cons a rest ih =>
    by_cases ha : a = p
    · subst ha; simp [getKey?]
    · simp only [List.mem_cons] at hp
      rcases hp with h | h
      · exact absurd h.symm ha
      · simp [getKey?, ha, ih h]

theorem getKey?_map_pair_none {α : Type} (f : String → α) (ls : List String)
    (p : String) (hp : p ∉ ls) :
    getKey? (ls.map (fun q => (q, f q))) p = none := by
  induction ls with
  | nil => simp [getKey?]
  | cons a rest ih =>
    simp only [List.mem_cons, not_or] at hp
    have hap : ¬(a = p) := fun hh => hp.1 hh.symm
    simp [getKey?, hap, ih hp.2]

/-! ## Rank and score policy (`getRankData`, `getWordScore`) -/

structure RankData where
  rank : String
  badge : String
deriving DecidableEq, Repr

/-- `getRankData(lp)` from `src/server.js`. -/
def getRankData (lp : Int) : RankData :=
  if lp ≤ 50 then ⟨"Novice Scribe", "e.png"⟩
  else if lp ≤ 100 then ⟨"Apprentice Lexis", "eplus.png"⟩
  else if lp ≤ 200 then ⟨"Word-Seeker", "d.png"⟩
  else if lp ≤ 300 then ⟨"Fluent Phrase-Maker", "dplus.png"⟩
  else if lp ≤ 400 then ⟨"Skilled Etymologist", "c.png"⟩
  else if lp ≤ 500 then ⟨"Master of Letters", "cplus.png"⟩
  else if lp ≤ 600 then ⟨"Eloquent Scholar", "b.png"⟩
  else if lp ≤ 700 then ⟨"Renowned Author", "bplus.png"⟩
  else if lp ≤ 800 then ⟨"Grand Lexicographer", "a.png"⟩
  else if lp ≤ 900 then ⟨"Sage of the Script", "aplus.png"⟩
  else if lp ≤ 999 then ⟨"Mythic Orator", "s.png"⟩
  else ⟨"Genesis Lexicon God", "splus.png"⟩

/-- `getWordScore(wordLength)` from `src/server.js`. -/
def getWordScore (wordLength : Nat) : Int :=
  if wordLength < 3 then 0
  else if wordLength = 3 ∨ wordLength = 4 then 1
  else if wordLength = 5 then 2
  else if wordLength = 6 then 3
  else if wordLength = 7 then 5
  else 11

/-! ## Dictionary trie (`TrieNode`, `Trie.insert`, `Trie.search`) -/

/-- A `TrieNode`: children keyed by character, plus an end-of-word mark. -/
inductive TrieN where
  | mk : List (Char × TrieN) → Bool → TrieN

def TrieN.children : TrieN → List (Char × TrieN)
  | .mk cs _ => cs

def TrieN.isEnd : TrieN → Bool
  | .mk _ e => e

/-- `new TrieNode()`: no children, not an end of word. -/
def TrieN.empty : TrieN := .mk [] false

/-- `Trie.search` walking from a node: follow each character, fail on a
missing child, and report the final node's end-of-word mark. -/
def searchFrom : TrieN → List Char → Bool
  | t, [] => t.isEnd
  | t, c :: rest =>
    match getKey? t.children c with
    | none => false
    | some t' => searchFrom t' rest

/-- `Trie.insert` walking from a node: create missing children along the
word and mark the final node as an end of word. -/
def insertFrom : TrieN → List Char → TrieN
  | .mk cs _, [] => .mk cs true
  | .mk cs e, c :: rest =>
    let child := (getKey? cs c).getD TrieN.empty
    .mk (setKey cs c (insertFrom child rest)) e

/-- `trie.search(word)` (iterates the characters of the word). -/
def trieSearch (t : TrieN) (w : String) : Bool := searchFrom t w.data

/-- `trie.insert(word)`. -/
def trieInsert (t : TrieN) (w : String) : TrieN := insertFrom t w.data

/-- Loading the dictionary: insert every (already normalized) word into an
initially empty trie, as the `words.forEach` startup loop does. -/
def loadTrie (ws : List String) : TrieN := ws.foldl trieInsert TrieN.empty

/-! ## String helpers

The game's client vocabulary is ASCII; `word.toUpperCase()` and
`name.startsWith('AI_')` are embedded character-wise so that the kernel can
evaluate them on concrete inputs. -/

/-- ASCII uppercase of one character (`toUpperCase` on the game alphabet). -/
def upChar (c : Char) : Char :=
  if 'a' ≤ c ∧ c ≤ 'z' then Char.ofNat (c.toNat - 32) else c

/-- `word.toUpperCase()`. -/
def toUpperStr (s : String) : String := ⟨s.data.map upChar⟩

/-- `player.startsWith('AI_')`: synthetic participants of AI-fill rooms. -/
def isAIName (p : String) : Bool := "AI_".data.isPrefixOf p.data

/-! ## Rooms (`rooms[roomId]` entries) -/

/-- Lifecycle status strings actually assigned by the server:
rooms are created `'waiting'` and `beginGameSequence` sets `'playing'`. -/
inductive RoomStatus where
  | waiting
  | playing
deriving DecidableEq, Repr

/-- A room record, as built by `findMatch`/`createRoom`/`startAIMatch`.
`scores` and `words` are the JS objects `room.scores` / `room.words`. -/
structure Room where
  players : List String
  scores : List (String × Int)
  words : List (String × List String)
  isCustom : Bool
  isAI : Bool
  isRankedWaiting : Bool
  status : RoomStatus
  password : Option String
  baseLp : Int
  time : Int
deriving DecidableEq, Repr

/-- The sentinel written into `room.scores` by `quitMatch` (`-9999`). -/
def FORFEIT_SCORE : Int := -9999

/-! ## Word submission (`socket.on('submitWord', ...)`) -/

inductive WordResult where
  | rejected
  | accepted (word : String) (points : Int)
deriving DecidableEq, Repr

/-- The `submitWord` handler.  `none` models the handler falling over on a
user not present in the room's `words` map (`undefined.includes` throws);
the join/create paths always populate `words` and `scores` together, so on
reachable rooms both lookups succeed for every participant.  On rejection
the handler emits `wordResult {success:false}` and changes nothing; on
success it credits `getWordScore` points and appends the word. -/
def submitWord (dict : TrieN) (room : Room) (user word : String) :
    Option (Room × WordResult) :=
  match getKey? room.words user, getKey? room.scores user with
  | some ws, some sc =>
    let cleanWord := toUpperStr word
    if cleanWord.length < 3 ∨ cleanWord ∈ ws ∨ trieSearch dict cleanWord = false then
      some (room, .rejected)
    else
      let points := getWordScore cleanWord.length
      some ({ room with
                scores := setKey room.scores user (sc + points),
                words := setKey room.words user (ws ++ [cleanWord]) },
            .accepted cleanWord points)
  | _, _ => none

/-- Rejection reasons of the submission contract.  Modelled from the same
handler's short-circuit order (`length < 3`, then `includes`, then
`!search`); the `src/unnamed/part_000` snapshot of this handler emits the
three distinct messages in exactly this order. -/
inductive RejectReason where
  | tooShort
  | duplicate
  | notAWord
deriving DecidableEq, Repr

/-- Which rejection fires first for a normalized word, given the submitting
participant's already-credited words `ws`. -/
def rejectReason (dict : TrieN) (ws : List String) (cleanWord : String) :
    Option RejectReason :=
  if cleanWord.length < 3 then some .tooShort
  else if cleanWord ∈ ws then some .duplicate
  else if trieSearch dict cleanWord = false then some .notAWord
  else none

/-! ## Room join (`socket.on('joinRoom', ...)`) -/

/-- The password gate `rooms[roomId].password && rooms[roomId].password !==
password`: a falsy stored password (absent or empty) skips the check, and
an undefined supplied password never equals a non-empty stored one. -/
def pwBlocked (stored supplied : Option String) : Bool :=
  match stored with
  | none => false
  | some s => if s = "" then false else decide (supplied ≠ some s)

/-- The `joinRoom` handler: `currentUser` is the authenticated identity
(`none` when unauthenticated), `room?` is `rooms[roomId]`. -/
def joinRoom (currentUser : Option String) (room? : Option Room)
    (supplied : Option String) : Except String Room :=
  match currentUser, room? with
  | some user, some room =>
    if 4 ≤ room.players.length then .error "Room unavailable."
    else if pwBlocked room.password supplied then .error "Incorrect password."
    else .ok { room with
                 players := room.players ++ [user],
                 scores := setKey room.scores user 0,
                 words := setKey room.words user [] }
  | _, _ => .error "Room unavailable."

/-! ## Matchmaking (`socket.on('findMatch', ...)`) -/

/-- One matchmaking-queue entry: a connection (socket id) tagged with the
requester's rating (`socket.lp`). -/
structure QEntry where
  id : Nat
  lp : Int
deriving DecidableEq, Repr

/-- `Math.abs(a - b) <= 200`: the fixed rating band. -/
def bandOK (a b : Int) : Bool := (a - b).natAbs ≤ 200

/-- The scan over existing rooms: the first `waiting` ranked room with
spare capacity whose anchor rating is within the band is joined. -/
def findRankedRoom (roomsL : List (String × Room)) (lp : Int) : Option String :=
  match roomsL with
  | [] => none
  | (id, room) :: rest =>
    if room.isRankedWaiting = true ∧ room.players.length < 4 ∧ bandOK room.baseLp lp then
      some id
    else findRankedRoom rest lp

inductive MatchOutcome where
  | joined (roomId : String)
  | formed (members : List QEntry)
  | searching
deriving DecidableEq, Repr

/-- The decision logic of the `findMatch` handler: join a qualifying
waiting ranked room if one exists; otherwise enqueue (idempotently, by
socket id), collect every queued entry within the band of the requester's
rating, and form a room iff at least two such entries exist. -/
def findMatchOutcome (roomsL : List (String × Room)) (queue : List QEntry)
    (self : QEntry) : MatchOutcome :=
  match findRankedRoom roomsL self.lp with
  | some id => .joined id
  | none =>
    let queue' := if queue.any (fun s => s.id = self.id) then queue
                  else queue ++ [self]
    let matchedGroup := queue'.filter (fun s => bandOK s.lp self.lp)
    if 2 ≤ matchedGroup.length then .formed matchedGroup else .searching

/-! ## Game start (`beginGameSequence`)

`beginGameSequence` immediately clears `isRankedWaiting`, sets
`status = 'playing'` and broadcasts `gameLoading`; only the `setTimeout`
callback 3000 ms later broadcasts `gameStart` and starts the countdown
timer (and the AI logic).  The room state during that grace window is the
result of this first phase. -/
def beginGameSequencePhase1 (room : Room) : Room :=
  { room with isRankedWaiting := false, status := .playing }

/-! ## Countdown timer (`startGameTimer` / first part of `handleGameOver`)

One repeating interval per room.  Each tick decrements `room.time` and
broadcasts it; when the time reaches zero the tick clears its own interval
and calls `handleGameOver`, whose first line bails out if the room no
longer exists and whose last line deletes the room.  The single-threaded
event loop runs each tick to completion, and a cleared interval fires no
further ticks; a tick of an already-cleared interval is a no-op. -/
structure TimerState where
  time : Int
  intervalActive : Bool
  roomPresent : Bool
  settlements : Nat
deriving DecidableEq, Repr

/-- The settlement guard and the final room deletion of `handleGameOver`:
`if (!room) return;` ... `delete rooms[roomId]`. -/
def handleGameOverStep (s : TimerState) : TimerState :=
  if s.roomPresent then
    { s with settlements := s.settlements + 1, roomPresent := false }
  else s

/-- One interval tick of `startGameTimer`. -/
def timerTick (s : TimerState) : TimerState :=
  if s.intervalActive then
    let s' := { s with time := s.time - 1 }
    if s'.time ≤ 0 then
      handleGameOverStep { s' with intervalActive := false }
    else s'
  else s

/-- The state right after `startGameTimer(roomId)` on a live room. -/
def startTimerState (t : Int) : TimerState :=
  { time := t, intervalActive := true, roomPresent := true, settlements := 0 }

/-! ## Settlement (`handleGameOver`): placement and LP deltas -/

/-- The inputs the LP-assignment part of `handleGameOver` reads:
`room.scores` and the `onlineUsers` presence map. -/
structure SettleCtx where
  scores : List (String × Int)
  online : String → Bool

/-- `room.scores[p]`. -/
def SettleCtx.playerScore (ctx : SettleCtx) (p : String) : Int :=
  (getKey? ctx.scores p).getD 0

/-- `sortedPlayers`: the keys of `room.scores` ordered by descending
score (`.sort((a, b) => scores[b] - scores[a])`). -/
def sortedPlayers (ctx : SettleCtx) : List String :=
  (ctx.scores.map Prod.fst).insertionSort
    (fun a b => ctx.playerScore b ≤ ctx.playerScore a)

/-- `activePlayers`: the human (non-`AI_`) participants. -/
def activePlayers (ctx : SettleCtx) : List String :=
  (sortedPlayers ctx).filter (fun p => !(isAIName p))

/-- `scoreGroups[score]`: the human participants tied at a given score. -/
def tiedAt (ctx : SettleCtx) (s : Int) : List String :=
  (activePlayers ctx).filter (fun p => ctx.playerScore p = s)

/-- `uniqueScores`: the distinct human scores, descending. -/
def uniqueScores (ctx : SettleCtx) : List Int :=
  (((activePlayers ctx).map ctx.playerScore).dedup).insertionSort
    (fun a b => b ≤ a)

/-- `!onlineUsers[p] || room.scores[p] === -9999`: a participant who
disconnected or manually forfeited. -/
def penalized (ctx : SettleCtx) (p : String) : Bool :=
  !(ctx.online p) || decide (ctx.playerScore p = FORFEIT_SCORE)

/-- `validPlayersCount`: humans still connected and not forfeited. -/
def validPlayersCount (ctx : SettleCtx) : Nat :=
  ((activePlayers ctx).filter
    (fun p => ctx.online p && !(decide (ctx.playerScore p = FORFEIT_SCORE)))).length

/-- `isTotalTie`: a single score group with more than one valid player. -/
def isTotalTie (ctx : SettleCtx) : Bool :=
  decide ((uniqueScores ctx).length = 1) && decide (1 < validPlayersCount ctx)

/-- The `assignedLp` switch of `handleGameOver`, as a function of the
human player count, the 1-based place (`placesTaken + 1`), the tie-group
size and the last-group flag. -/
def assignedLpFor (pCount place numTied : Nat) (isLast : Bool) : Int :=
  if isLast then -5
  else if place = 1 then
    if numTied = 1 then 20
    else if numTied = 2 then 10
    else if numTied = 3 then 6
    else 0
  else if place = 2 then
    if pCount = 4 then
      if numTied = 1 then 5
      else if numTied = 2 then 2
      else if numTied = 3 then 1
      else 0
    else if pCount = 3 then
      if numTied = 1 then 0 else 0
    else 0
  else if place = 3 then 0
  else 0

/-- The `uniqueScores.forEach` loop of the non-total-tie branch, threading
`placesTaken` and emitting each tie group's `(player, lp)` assignments. -/
def assignGroups (ctx : SettleCtx) (pCount : Nat) :
    List Int → Nat → List (String × Int)
  | [], _ => []
  | s :: rest, placesTaken =>
    let tiedPlayers := tiedAt ctx s
    let numTied := tiedPlayers.length
    let assignedLp :=
      assignedLpFor pCount (placesTaken + 1) numTied
        (decide (placesTaken + numTied = pCount))
    tiedPlayers.map
        (fun p => (p, if penalized ctx p then -20 else assignedLp))
      ++ assignGroups ctx pCount rest (placesTaken + numTied)

/-- `lpAssignments`: the per-human LP deltas of a non-AI settlement. -/
def lpAssignments (ctx : SettleCtx) : List (String × Int) :=
  if isTotalTie ctx then
    (activePlayers ctx).map
      (fun p => (p, if penalized ctx p then -20 else 0))
  else
    assignGroups ctx (activePlayers ctx).length (uniqueScores ctx) 0

/-- `lpChange = lpAssignments[player]` for a human in a ranked/custom room. -/
def lpChangeOf (ctx : SettleCtx) (p : String) : Int :=
  (getKey? (lpAssignments ctx) p).getD 0

/-- Human players with strictly greater scores (the `placesTaken`
accumulated before this player's tie group). -/
def aboveCount (ctx : SettleCtx) (p : String) : Nat :=
  ((activePlayers ctx).filter
    (fun q => ctx.playerScore p < ctx.playerScore q)).length

/-- The size of this player's tie group. -/
def tieCount (ctx : SettleCtx) (p : String) : Nat :=
  (tiedAt ctx (ctx.playerScore p)).length

/-- The AI-practice LP rule of `handleGameOver`: zero when disconnected or
forfeited, else `floor(score / 10)` for scores of at least 10. -/
def aiLpChange (ctx : SettleCtx) (p : String) : Int :=
  if !(ctx.online p) || decide (ctx.playerScore p = FORFEIT_SCORE) then 0
  else if 10 ≤ ctx.playerScore p then ctx.playerScore p / 10
  else 0

/-- The `score` field reported per player in the `gameOver` results:
AI players report their accrued score; a forfeited human reports 0,
any other human reports the accrued score. -/
def reportedResults (ctx : SettleCtx) : List (String × Int) :=
  (sortedPlayers ctx).map
    (fun p =>
      (p, if isAIName p then ctx.playerScore p
          else if ctx.playerScore p = FORFEIT_SCORE then 0
          else ctx.playerScore p))

/-! ## Persistence (the `Wordiers` table) -/

/-- One persisted account row (the fields gameplay touches). -/
structure Account where
  lp : Int
  rank : String
  wins : Nat
  losses : Nat
deriving DecidableEq, Repr

/-- The persistence collaborator, keyed by username. -/
def DB : Type := String → Account

/-- The database write of the `quitMatch` handler: a flat `-20` LP change
in ranked/custom rooms (`0` in AI practice), one added loss (none in AI),
clamped at zero, with the rank label rederived. -/
def quitMatchDB (isAIRoom : Bool) (db : DB) (user : String) : DB :=
  let lpChange : Int := if isAIRoom then 0 else -20
  let a := db user
  let newLp := max 0 (a.lp + lpChange)
  let newLosses := a.losses + (if isAIRoom then 0 else 1)
  Function.update db user
    { lp := newLp, rank := (getRankData newLp).rank,
      wins := a.wins, losses := newLosses }

/-- The in-room effect of `quitMatch`: `room.scores[currentUser] = -9999`. -/
def quitMatchScores (scores : List (String × Int)) (user : String) :
    List (String × Int) :=
  setKey scores user FORFEIT_SCORE

/-- The per-player persistence step of the `handleGameOver` write-back
loop.  AI names are reported with placeholder fields and never written;
a human is written `lp/rank/wins/losses` in a ranked/custom room and
`lp/rank` in an AI room — in both cases only if they did not forfeit.
`isWin` abstracts the loop's `isWinAssignments` map. -/
def settleApplyPlayer (isAIRoom : Bool) (ctx : SettleCtx)
    (isWin : String → Bool) (db : DB) (p : String) : DB :=
  if isAIName p then db
  else
    let hasForfeited := decide (ctx.playerScore p = FORFEIT_SCORE)
    let lpChange := if isAIRoom then aiLpChange ctx p else lpChangeOf ctx p
    let a := db p
    let newLp := max 0 (a.lp + lpChange)
    let rankData := getRankData newLp
    if ¬isAIRoom ∧ ¬(hasForfeited = true) then
      Function.update db p
        { lp := newLp, rank := rankData.rank,
          wins := a.wins + (if isWin p then 1 else 0),
          losses := a.losses + (if isWin p then 0 else 1) }
    else if isAIRoom ∧ ¬(hasForfeited = true) then
      Function.update db p { a with lp := newLp, rank := rankData.rank }
    else db

/-- The whole write-back loop of `handleGameOver` over `sortedPlayers`. -/
def settleDB (isAIRoom : Bool) (ctx : SettleCtx) (isWin : String → Bool)
    (db : DB) : DB :=
  (sortedPlayers ctx).foldl (settleApplyPlayer isAIRoom ctx isWin) db

/-! # Theorems -/

/-! ## Dictionary correctness (claim C4) -/

theorem searchFrom_empty : ∀ w, searchFrom TrieN.empty w = false
  | [] => rfl
  | _ :: _ => by simp [searchFrom, TrieN.empty, TrieN.children, getKey?]

theorem searchFrom_insertFrom (wd : List Char) :
    ∀ (t : TrieN) (vd : List Char),
      searchFrom (insertFrom t wd) vd = true ↔
        (vd = wd ∨ searchFrom t vd = true) := by
  induction wd with
  | nil =>
    intro t vd
    obtain ⟨cs, e⟩ := t
    cases vd with
    | nil => simp [insertFrom, searchFrom, TrieN.isEnd]
    | cons c vr =>
      simp only [insertFrom, searchFrom, TrieN.children]
      constructor
      · intro h; exact Or.inr h
      · intro h
        rcases h with h | h
        · exact absurd h (by simp)
        · exact h
  | cons c wr ih =>
    intro t vd
    obtain ⟨cs, e⟩ := t
    cases vd with
    | nil =>
      simp [insertFrom, searchFrom, TrieN.isEnd]
    | cons c' vr =>
      by_cases hc : c' = c
      · subst hc
        simp only [insertFrom, searchFrom, TrieN.children]
        rw [getKey?_setKey_self]
        simp only [List.cons.injEq, true_and]
        cases hx : getKey? cs c' with
        | none =>
          simp only [hx, Option.getD_none]
          rw [ih]
          simp [searchFrom_empty]
        | some t' =>
          simp only [hx, Option.getD_some]
          rw [ih]
      · simp only [insertFrom, searchFrom, TrieN.children]
        rw [getKey?_setKey_ne _ _ _ _ hc]
        have hne : ¬(c' :: vr = c :: wr) := by
          intro h; exact hc (List.cons.injEq .. ▸ h).1
        cases hx : getKey? cs c' with
        | none => simp [hne]
        | some t' => simp [hne]

theorem trieSearch_foldl (ws : List String) :
    ∀ (t : TrieN) (q : String),
      trieSearch (ws.foldl trieInsert t) q = true ↔
        (trieSearch t q = true ∨ q ∈ ws) := by
  induction ws with
  | nil => intro t q; simp
  | cons w ws ih =>
    intro t q
    simp only [List.foldl_cons]
    rw [ih]
    unfold trieSearch trieInsert
    rw [searchFrom_insertFrom]
    constructor
    · rintro ((h | h) | h)
      · have hqw : q = w := String.ext h
        exact Or.inr (hqw ▸ List.mem_cons_self w ws)
      · exact Or.inl h
      · exact Or.inr (List.mem_cons_of_mem _ h)
    · rintro (h | h)
      · exact Or.inl (Or.inr h)
      · rcases List.mem_cons.mp h with h | h
        · exact Or.inl (Or.inl (by rw [h]))
        · exact Or.inr h

/-- C4: the dictionary membership test is exact-word membership: over any
loaded vocabulary it answers `true` iff the query is one of the inserted
words, so it is `false` on every unloaded proper prefix of a loaded word,
and over an absent/empty vocabulary it is `false` everywhere (the search
is a total function, so it never throws). -/
theorem dictionary_search_exact_membership (ws : List String) (q : String) :
    (trieSearch (loadTrie ws) q = true ↔ q ∈ ws) ∧
    trieSearch (loadTrie []) q = false ∧
    (∀ w ∈ ws, q.data <+: w.data → q ∉ ws →
      trieSearch (loadTrie ws) q = false) := by
  have hmain : ∀ (vs : List String) (r : String),
      trieSearch (loadTrie vs) r = true ↔ r ∈ vs := by
    intro vs r
    unfold loadTrie
    rw [trieSearch_foldl]
    unfold trieSearch
    rw [searchFrom_empty]
    simp
  refine ⟨hmain ws q, ?_, ?_⟩
  · have := hmain [] q
    simp at this
    simp [this]
  · intro w _ _ hq
    have := hmain ws q
    cases hx : trieSearch (loadTrie ws) q with
    | false => rfl
    | true => exact absurd (this.mp hx) hq

/-- C4 witness: a loaded word is found, its unloaded proper prefix is not,
and the empty vocabulary rejects everything. -/
theorem dictionary_search_exact_membership_witness :
    trieSearch (loadTrie ["CAT", "CATS"]) "CAT" = true ∧
    trieSearch (loadTrie ["CAT", "CATS"]) "CA" = false ∧
    trieSearch (loadTrie []) "CA" = false := by
  refine ⟨?_, ?_, ?_⟩
  · exact (dictionary_search_exact_membership ["CAT", "CATS"] "CAT").1.mpr
      (by decide)
  · exact (dictionary_search_exact_membership ["CAT", "CATS"] "CA").2.2
      "CATS" (by decide) (by decide) (by decide)
  · exact (dictionary_search_exact_membership [] "CA").2.1

/-! ## Word submission contract (claim C3) -/

theorem submitWord_eq (dict : TrieN) (room : Room) (user word : String)
    {ws : List String} {sc : Int}
    (hws : getKey? room.words user = some ws)
    (hsc : getKey? room.scores user = some sc) :
    submitWord dict room user word =
      if (toUpperStr word).length < 3 ∨ toUpperStr word ∈ ws ∨
          trieSearch dict (toUpperStr word) = false then
        some (room, .rejected)
      else
        some ({ room with
                  scores := setKey room.scores user
                    (sc + getWordScore (toUpperStr word).length),
                  words := setKey room.words user
                    (ws ++ [toUpperStr word]) },
              .accepted (toUpperStr word)
                (getWordScore (toUpperStr word).length)) := by
  unfold submitWord
  rw [hws, hsc]

/-- C3: a submission by a participant of an existing room is normalized to
upper case and rejected — with reason `tooShort`, `duplicate` or `notAWord`
respectively — iff the normalized word is shorter than 3 characters,
already credited to this participant, or not in the dictionary; otherwise
exactly `getWordScore` points are credited and the word is appended, and a
second submission of the same word is rejected as a duplicate and leaves
the room's scores and word sets unchanged. -/
theorem submitWord_contract (dict : TrieN) (room : Room) (user word : String)
    (ws : List String) (sc : Int)
    (hws : getKey? room.words user = some ws)
    (hsc : getKey? room.scores user = some sc) :
    ((rejectReason dict ws (toUpperStr word)).isSome ↔
      ((toUpperStr word).length < 3 ∨ toUpperStr word ∈ ws ∨
        trieSearch dict (toUpperStr word) = false)) ∧
    (rejectReason dict ws (toUpperStr word) = some .tooShort ↔
      (toUpperStr word).length < 3) ∧
    (rejectReason dict ws (toUpperStr word) = some .duplicate ↔
      (¬(toUpperStr word).length < 3 ∧ toUpperStr word ∈ ws)) ∧
    (rejectReason dict ws (toUpperStr word) = some .notAWord ↔
      (¬(toUpperStr word).length < 3 ∧ toUpperStr word ∉ ws ∧
        trieSearch dict (toUpperStr word) = false)) ∧
    ((rejectReason dict ws (toUpperStr word)).isSome →
      submitWord dict room user word = some (room, .rejected)) ∧
    (rejectReason dict ws (toUpperStr word) = none →
      submitWord dict room user word =
        some ({ room with
                  scores := setKey room.scores user
                    (sc + getWordScore (toUpperStr word).length),
                  words := setKey room.words user
                    (ws ++ [toUpperStr word]) },
              .accepted (toUpperStr word)
                (getWordScore (toUpperStr word).length))) ∧
    (rejectReason dict ws (toUpperStr word) = none →
      submitWord dict
        { room with
            scores := setKey room.scores user
              (sc + getWordScore (toUpperStr word).length),
            words := setKey room.words user (ws ++ [toUpperStr word]) }
        user word =
      some ({ room with
                scores := setKey room.scores user
                  (sc + getWordScore (toUpperStr word).length),
                words := setKey room.words user (ws ++ [toUpperStr word]) },
            .rejected)) := by
  have hiff : (rejectReason dict ws (toUpperStr word)).isSome ↔
      ((toUpperStr word).length < 3 ∨ toUpperStr word ∈ ws ∨
        trieSearch dict (toUpperStr word) = false) := by
    unfold rejectReason
    split_ifs <;> simp [*]
  refine ⟨hiff, ?_, ?_, ?_, ?_, ?_, ?_⟩
  · unfold rejectReason
    split_ifs <;> simp [*]
  · unfold rejectReason
    split_ifs <;> simp [*]
  · unfold rejectReason
    split_ifs <;> simp [*]
  · intro hr
    rw [submitWord_eq dict room user word hws hsc, if_pos (hiff.mp hr)]
  · intro hr
    have hcond : ¬((toUpperStr word).length < 3 ∨ toUpperStr word ∈ ws ∨
        trieSearch dict (toUpperStr word) = false) := by
      intro hc
      have hs := hiff.mpr hc
      rw [hr] at hs
      simp at hs
    rw [submitWord_eq dict room user word hws hsc, if_neg hcond]
  · intro _
    rw [submitWord_eq dict _ user word
        (getKey?_setKey_self room.words user (ws ++ [toUpperStr word]))
        (getKey?_setKey_self room.scores user
          (sc + getWordScore (toUpperStr word).length))]
    rw [if_pos (Or.inr (Or.inl (List.mem_append_right ws
      (List.mem_singleton_self (toUpperStr word)))))]

/-- C3 witness: in a room whose dictionary holds `CAT`, submitting `cat`
normalizes to `CAT`, succeeds with 1 point, and a resubmission is a
duplicate rejection leaving the room unchanged. -/
theorem submitWord_contract_witness :
    submitWord (loadTrie ["CAT"])
        { players := ["u"], scores := [("u", 0)], words := [("u", [])],
          isCustom := false, isAI := false, isRankedWaiting := false,
          status := .playing, password := none, baseLp := 0, time := 120 }
        "u" "cat" =
      some ({ players := ["u"], scores := [("u", 1)], words := [("u", ["CAT"])],
              isCustom := false, isAI := false, isRankedWaiting := false,
              status := .playing, password := none, baseLp := 0, time := 120 },
            .accepted "CAT" 1) := by
  have h := (submitWord_contract (loadTrie ["CAT"])
      { players := ["u"], scores := [("u", 0)], words := [("u", [])],
        isCustom := false, isAI := false, isRankedWaiting := false,
        status := .playing, password := none, baseLp := 0, time := 120 }
      "u" "cat" [] 0 (by rfl) (by rfl)).2.2.2.2.2.1 (by decide)
  rw [h]
  decide

/-! ## Further association-list lemmas -/

theorem getKey?_append_left {κ α : Type} [DecidableEq κ]
    {l₁ : List (κ × α)} (l₂ : List (κ × α)) {k : κ} {v : α}
    (h : getKey? l₁ k = some v) : getKey? (l₁ ++ l₂) k = some v := by
  induction l₁ with
  | nil => simp [getKey?] at h
  | cons kv rest ih =>
    obtain ⟨k', v'⟩ := kv
    by_cases hk : k' = k
    · subst hk
      simp [getKey?] at h ⊢
      exact h
    · simp only [getKey?, if_neg hk] at h
      simp [getKey?, hk, ih h]

theorem getKey?_append_right {κ α : Type} [DecidableEq κ]
    {l₁ : List (κ × α)} (l₂ : List (κ × α)) {k : κ}
    (h : getKey? l₁ k = none) : getKey? (l₁ ++ l₂) k = getKey? l₂ k := by
  induction l₁ with
  | nil => simp
  | cons kv rest ih =>
    obtain ⟨k', v'⟩ := kv
    by_cases hk : k' = k
    · simp [getKey?, hk] at h
    · simp only [getKey?, if_neg hk] at h
      simp [getKey?, hk, ih h]

/-! ## Room join (claim C9) -/

/-- C9: `joinRoom` by an authenticated user succeeds — appending the
participant with a zero score and an empty word set — exactly when the
room exists, has fewer than 4 participants, and its password gate passes
(absent/empty password, or matching supplied password); the room's kind
flags and lifecycle status are never consulted, so even a room whose
status is `playing` is joined; the only rejections are a missing room, a
full room and a wrong password. -/
theorem joinRoom_contract (user : String) (room : Room) (pw : Option String) :
    ((room.players.length < 4 ∧ pwBlocked room.password pw = false) →
      joinRoom (some user) (some room) pw =
        .ok { room with
                players := room.players ++ [user],
                scores := setKey room.scores user 0,
                words := setKey room.words user [] }) ∧
    ((room.players.length < 4 ∧ pwBlocked room.password pw = false) →
      getKey? (setKey room.scores user 0) user = some 0 ∧
      getKey? (setKey room.words user []) user = some []) ∧
    ((∃ e, joinRoom (some user) (some room) pw = .error e) ↔
      (4 ≤ room.players.length ∨ pwBlocked room.password pw = true)) ∧
    joinRoom (some user) none pw = .error "Room unavailable." := by
  refine ⟨?_, ?_, ?_, rfl⟩
  · rintro ⟨hcap, hpw⟩
    simp only [joinRoom]
    rw [if_neg (by omega), if_neg (by simp [hpw])]
  · rintro ⟨_, _⟩
    exact ⟨getKey?_setKey_self _ _ _, getKey?_setKey_self _ _ _⟩
  · constructor
    · rintro ⟨e, he⟩
      by_cases hcap : 4 ≤ room.players.length
      · exact Or.inl hcap
      · by_cases hpw : pwBlocked room.password pw = true
        · exact Or.inr hpw
        · simp only [joinRoom] at he
          rw [if_neg hcap, if_neg (by simp [hpw])] at he
          cases he
    · intro h
      simp only [joinRoom]
      by_cases hcap : 4 ≤ room.players.length
      · exact ⟨"Room unavailable.", by rw [if_pos hcap]⟩
      · rcases h with h | h
        · exact absurd h hcap
        · exact ⟨"Incorrect password.", by rw [if_neg hcap, if_pos (by simp [h])]⟩

/-- C9 witness: a password-protected custom room that is already
`playing` is still joined when the password matches, and the joiner gets
score 0 and an empty word set. -/
theorem joinRoom_contract_witness :
    joinRoom (some "newguy")
        (some { players := ["a", "b"], scores := [("a", 7), ("b", 3)],
                words := [("a", ["CAT"]), ("b", ["DOG"])], isCustom := true,
                isAI := false, isRankedWaiting := false, status := .playing,
                password := some "pw", baseLp := 0, time := 55 })
        (some "pw") =
      .ok { players := ["a", "b", "newguy"],
            scores := [("a", 7), ("b", 3), ("newguy", 0)],
            words := [("a", ["CAT"]), ("b", ["DOG"]), ("newguy", [])],
            isCustom := true, isAI := false, isRankedWaiting := false,
            status := .playing, password := some "pw", baseLp := 0,
            time := 55 } := by
  have h := (joinRoom_contract "newguy"
      { players := ["a", "b"], scores := [("a", 7), ("b", 3)],
        words := [("a", ["CAT"]), ("b", ["DOG"])], isCustom := true,
        isAI := false, isRankedWaiting := false, status := .playing,
        password := some "pw", baseLp := 0, time := 55 }
      (some "pw")).1 ⟨by decide, by decide⟩
  rw [h]
  rfl

/-! ## Reported settlement scores (claim C10) -/

/-- C10: in the `gameOver` results, a forfeited human participant is
reported with a final score of exactly 0 — never the `-9999` sentinel and
never an accrued score — while every non-forfeiting participant (human or
AI) is reported with the accrued score. -/
theorem gameOver_reported_scores (ctx : SettleCtx) (p : String)
    (hp : p ∈ sortedPlayers ctx) :
    (isAIName p = false → ctx.playerScore p = FORFEIT_SCORE →
      getKey? (reportedResults ctx) p = some 0) ∧
    (ctx.playerScore p ≠ FORFEIT_SCORE →
      getKey? (reportedResults ctx) p = some (ctx.playerScore p)) ∧
    (isAIName p = false →
      getKey? (reportedResults ctx) p ≠ some FORFEIT_SCORE) := by
  have hbase := getKey?_map_pair
    (fun q => if isAIName q then ctx.playerScore q
              else if ctx.playerScore q = FORFEIT_SCORE then 0
              else ctx.playerScore q)
    (sortedPlayers ctx) p hp
  refine ⟨?_, ?_, ?_⟩
  · intro hai hf
    unfold reportedResults
    rw [hbase]
    simp [hai, hf]
  · intro hf
    unfold reportedResults
    rw [hbase]
    by_cases hai : isAIName p <;> simp [hai, hf]
  · intro hai
    unfold reportedResults
    rw [hbase]
    by_cases hf : ctx.playerScore p = FORFEIT_SCORE
    · simp [hai, hf, FORFEIT_SCORE]
    · have hf' : ¬ctx.playerScore p = (-9999 : Int) := by
        simpa [FORFEIT_SCORE] using hf
      simp [hai, FORFEIT_SCORE, hf']

/-- C10 witness: a forfeited human is reported with 0 while a
non-forfeiting human is reported with the accrued score. -/
theorem gameOver_reported_scores_witness :
    getKey? (reportedResults ⟨[("A", 30), ("B", -9999)], fun _ => true⟩) "B" =
      some 0 ∧
    getKey? (reportedResults ⟨[("A", 30), ("B", -9999)], fun _ => true⟩) "A" =
      some 30 := by
  constructor
  · exact (gameOver_reported_scores ⟨[("A", 30), ("B", -9999)], fun _ => true⟩
      "B" (by decide)).1 (by decide) (by decide)
  · exact ((gameOver_reported_scores ⟨[("A", 30), ("B", -9999)], fun _ => true⟩
      "A" (by decide)).2.1 (by decide))

/-! ## Countdown and single settlement (claim C5) -/

theorem timerTick_run (time : Int) (h : ¬time - 1 ≤ 0) :
    timerTick { time := time, intervalActive := true, roomPresent := true,
                settlements := 0 } =
      { time := time - 1, intervalActive := true, roomPresent := true,
        settlements := 0 } := by
  unfold timerTick
  simp [h]

theorem timerTick_settle (time : Int) (h : time - 1 ≤ 0) :
    timerTick { time := time, intervalActive := true, roomPresent := true,
                settlements := 0 } =
      { time := time - 1, intervalActive := false, roomPresent := false,
        settlements := 1 } := by
  unfold timerTick handleGameOverStep
  simp [h]

theorem timerTick_inactive (s : TimerState) (h : s.intervalActive = false) :
    timerTick s = s := by
  unfold timerTick
  simp [h]

theorem timerTick_closed_form (t : Int) (ht : 0 < t) (n : Nat) :
    timerTick^[n] (startTimerState t) =
      if (n : Int) < t then
        { time := t - n, intervalActive := true, roomPresent := true,
          settlements := 0 }
      else
        { time := 0, intervalActive := false, roomPresent := false,
          settlements := 1 } := by
  induction n with
  | zero =>
    rw [Function.iterate_zero_apply, if_pos (by exact_mod_cast ht)]
    simp [startTimerState]
  | succ n ih =>
    rw [Function.iterate_succ_apply', ih]
    by_cases h : (n : Int) < t
    · rw [if_pos h]
      by_cases h2 : ((n : Int) + 1) < t
      · rw [timerTick_run _ (by omega), if_pos (by push_cast; omega)]
        simp only [TimerState.mk.injEq, and_true, true_and]
        push_cast
        ring
      · rw [timerTick_settle _ (by omega), if_neg (by push_cast; omega)]
        simp only [TimerState.mk.injEq, and_true, true_and]
        omega
    · rw [if_neg h, timerTick_inactive _ rfl, if_neg (by push_cast; omega)]

/-- C5: once a room's countdown reaches 0 (after `time` ticks), the
repeating interval is cancelled and settlement runs exactly once: the
settlement count is 0 before the zero-crossing and exactly 1 from then
on, never 2, no matter how many further ticks are processed. -/
theorem countdown_settles_exactly_once (t : Int) (ht : 0 < t) (n : Nat) :
    (timerTick^[n] (startTimerState t)).settlements =
      (if (n : Int) < t then 0 else 1) ∧
    (timerTick^[n] (startTimerState t)).intervalActive =
      decide ((n : Int) < t) ∧
    (timerTick^[n] (startTimerState t)).settlements ≤ 1 := by
  rw [timerTick_closed_form t ht n]
  by_cases h : (n : Int) < t <;> simp [h]

/-- C5 witness: a 3-second room settles exactly once by tick 5, with the
interval cancelled. -/
theorem countdown_settles_exactly_once_witness :
    (timerTick^[5] (startTimerState 3)).settlements = 1 ∧
    (timerTick^[5] (startTimerState 3)).intervalActive = false := by
  have h := countdown_settles_exactly_once 3 (by decide) 5
  refine ⟨?_, ?_⟩
  · rw [h.1]; decide
  · rw [h.2.1]; decide

/-! ## Matchmaking band (claim C6) -/

/-- C6: a waiting ranked room with spare capacity is joined iff its
anchor rating is within 200 of the requester's rating; two queued
connections 200 apart form a match, and 201 apart do not (the requester
keeps searching). -/
theorem matchmaking_band (room : Room) (id : String) (lp : Int)
    (e self : QEntry)
    (hw : room.isRankedWaiting = true) (hcap : room.players.length < 4)
    (hid : e.id ≠ self.id) :
    (findRankedRoom [(id, room)] lp = some id ↔
      (room.baseLp - lp).natAbs ≤ 200) ∧
    ((e.lp - self.lp).natAbs = 200 →
      findMatchOutcome [] [e] self = .formed [e, self]) ∧
    ((e.lp - self.lp).natAbs = 201 →
      findMatchOutcome [] [e] self = .searching) := by
  refine ⟨?_, ?_, ?_⟩
  · unfold findRankedRoom
    by_cases hb : bandOK room.baseLp lp = true
    · rw [if_pos ⟨hw, hcap, hb⟩]
      simp only [bandOK, decide_eq_true_eq] at hb
      simp [hb]
    · rw [if_neg (by
        rintro ⟨_, _, hbb⟩
        exact hb hbb)]
      simp only [bandOK, decide_eq_true_eq] at hb
      unfold findRankedRoom
      simp [hb]
  · intro h200
    unfold findMatchOutcome findRankedRoom
    have hq : ([e].any (fun s => s.id = self.id)) = false := by
      simp [hid]
    simp only [hq, Bool.false_eq_true, if_false]
    have hb1 : bandOK e.lp self.lp = true := by
      simp [bandOK, h200]
    have hb2 : bandOK self.lp self.lp = true := by
      simp [bandOK]
    simp [List.filter, hb1, hb2]
  · intro h201
    unfold findMatchOutcome findRankedRoom
    have hq : ([e].any (fun s => s.id = self.id)) = false := by
      simp [hid]
    simp only [hq, Bool.false_eq_true, if_false]
    have hb1 : bandOK e.lp self.lp = false := by
      simp [bandOK, h201]
    have hb2 : bandOK self.lp self.lp = true := by
      simp [bandOK]
    simp [List.filter, hb1, hb2]

/-- C6 witness: a waiting ranked room anchored 200 LP away is joined,
and two queued connections 200 apart (but not 201 apart) are matched. -/
theorem matchmaking_band_witness :
    findRankedRoom
        [("r", { players := ["x"], scores := [("x", 0)], words := [("x", [])],
                 isCustom := false, isAI := false, isRankedWaiting := true,
                 status := .waiting, password := none, baseLp := 300,
                 time := 120 })] 100 = some "r" ∧
    findMatchOutcome [] [⟨1, 300⟩] ⟨2, 100⟩ = .formed [⟨1, 300⟩, ⟨2, 100⟩] ∧
    findMatchOutcome [] [⟨1, 301⟩] ⟨2, 100⟩ = .searching := by
  have h := matchmaking_band
    { players := ["x"], scores := [("x", 0)], words := [("x", [])],
      isCustom := false, isAI := false, isRankedWaiting := true,
      status := .waiting, password := none, baseLp := 300, time := 120 }
    "r" 100 ⟨1, 300⟩ ⟨2, 100⟩ rfl (by decide) (by decide)
  have h' := matchmaking_band
    { players := ["x"], scores := [("x", 0)], words := [("x", [])],
      isCustom := false, isAI := false, isRankedWaiting := true,
      status := .waiting, password := none, baseLp := 300, time := 120 }
    "r" 100 ⟨1, 301⟩ ⟨2, 100⟩ rfl (by decide) (by decide)
  exact ⟨h.1.mpr (by decide), h.2.1 (by decide), h'.2.2 (by decide)⟩

/-! ## Loading grace period and scoring (claim C7) -/

/-- A helper iff shared by the submission theorems: no rejection fires
exactly when the word passes every check. -/
theorem rejectReason_eq_none_iff (dict : TrieN) (ws : List String)
    (cw : String) :
    rejectReason dict ws cw = none ↔
      ¬(cw.length < 3 ∨ cw ∈ ws ∨ trieSearch dict cw = false) := by
  unfold rejectReason
  split_ifs <;> simp [*]

/-- A concrete custom room immediately after `beginGameSequence` has run
its first phase (the `gameLoading` broadcast) but before the delayed
`gameStart`/`startGameTimer` callback: the loading grace window. -/
def loadingGraceRoom : Room :=
  beginGameSequencePhase1
    { players := ["u", "w"], scores := [("u", 0), ("w", 0)],
      words := [("u", []), ("w", [])], isCustom := true, isAI := false,
      isRankedWaiting := false, status := .waiting, password := none,
      baseLp := 0, time := 120 }

/-- C7 counterexample: the claim says submissions during the ~3-unit
loading grace period are never scored, but `beginGameSequence` sets the
status to `playing` immediately and `submitWord` checks only that the
room exists, so a valid word submitted during the grace window (before
`gameStart`) is credited: the submitter's score moves from 0 to 1 and
the word is recorded. -/
theorem loading_grace_is_scored_counterexample :
    getKey? loadingGraceRoom.scores "u" = some 0 ∧
    submitWord (loadTrie ["CAT"]) loadingGraceRoom "u" "cat" =
      some ({ loadingGraceRoom with
                scores := [("u", 1), ("w", 0)],
                words := [("u", ["CAT"]), ("w", [])] },
            .accepted "CAT" 1) := by
  constructor
  · rfl
  · rfl

/-- C7 amended: during the loading grace period between the `gameLoading`
broadcast and `gameStart`, the room status is already `playing` and the
`submitWord` handler consults no lifecycle flag, so a submission that
passes validation IS scored exactly as during play; the grace period only
delays the `gameStart` broadcast, the countdown and the AI emission. -/
theorem loading_grace_scores_submissions (dict : TrieN) (room : Room)
    (user word : String) (ws : List String) (sc : Int)
    (hws : getKey? (beginGameSequencePhase1 room).words user = some ws)
    (hsc : getKey? (beginGameSequencePhase1 room).scores user = some sc)
    (hok : rejectReason dict ws (toUpperStr word) = none) :
    (beginGameSequencePhase1 room).status = RoomStatus.playing ∧
    submitWord dict (beginGameSequencePhase1 room) user word =
      some ({ beginGameSequencePhase1 room with
                scores := setKey (beginGameSequencePhase1 room).scores user
                  (sc + getWordScore (toUpperStr word).length),
                words := setKey (beginGameSequencePhase1 room).words user
                  (ws ++ [toUpperStr word]) },
            .accepted (toUpperStr word)
              (getWordScore (toUpperStr word).length)) := by
  refine ⟨rfl, ?_⟩
  rw [submitWord_eq dict _ user word hws hsc,
    if_neg ((rejectReason_eq_none_iff dict ws (toUpperStr word)).mp hok)]

/-- C7 amended witness: a valid word submitted in the grace window of a
freshly started two-player room is credited. -/
theorem loading_grace_scores_submissions_witness :
    submitWord (loadTrie ["DOG"])
        (beginGameSequencePhase1
          { players := ["v"], scores := [("v", 0)], words := [("v", [])],
            isCustom := true, isAI := false, isRankedWaiting := false,
            status := .waiting, password := none, baseLp := 0,
            time := 120 })
        "v" "dog" =
      some (beginGameSequencePhase1
              { players := ["v"], scores := [("v", 1)],
                words := [("v", ["DOG"])], isCustom := true, isAI := false,
                isRankedWaiting := false, status := .waiting,
                password := none, baseLp := 0, time := 120 },
            .accepted "DOG" 1) := by
  have h := (loading_grace_scores_submissions (loadTrie ["DOG"])
      { players := ["v"], scores := [("v", 0)], words := [("v", [])],
        isCustom := true, isAI := false, isRankedWaiting := false,
        status := .waiting, password := none, baseLp := 0, time := 120 }
      "v" "dog" [] 0 rfl rfl (by rfl)).2
  rw [h]
  rfl

/-! ## Settlement never re-charges a forfeiter (claim C8) -/

theorem settleApplyPlayer_preserves_forfeited (isAIRoom : Bool)
    (ctx : SettleCtx) (isWin : String → Bool) (db : DB) (p q : String)
    (hf : ctx.playerScore p = FORFEIT_SCORE) :
    settleApplyPlayer isAIRoom ctx isWin db q p = db p := by
  unfold settleApplyPlayer
  by_cases hai : isAIName q = true
  · simp [hai]
  · simp only [hai, Bool.false_eq_true, if_false]
    by_cases hq : q = p
    · subst hq
      simp [hf]
    · have hq' : p ≠ q := fun hh => hq hh.symm
      split_ifs <;> simp [Function.update_noteq hq']

theorem settleDB_preserves_forfeited (isAIRoom : Bool) (ctx : SettleCtx)
    (isWin : String → Bool) (db : DB) (p : String)
    (hf : ctx.playerScore p = FORFEIT_SCORE) :
    settleDB isAIRoom ctx isWin db p = db p := by
  unfold settleDB
  generalize sortedPlayers ctx = l
  induction l generalizing db with
  | nil => rfl
  | cons q rest ih =>
    rw [List.foldl_cons, ih,
      settleApplyPlayer_preserves_forfeited isAIRoom ctx isWin db p q hf]

/-- C8: a participant who manually quit (so `quitMatch` already wrote the
quit-time penalty and set the `-9999` sentinel) gets no persistence write
at settlement: after the `handleGameOver` write-back loop their stored
LP, rank, wins and losses are exactly what the quit-time update left. -/
theorem settlement_no_double_quit_charge (isAIRoom : Bool)
    (scores : List (String × Int)) (online : String → Bool)
    (isWin : String → Bool) (db : DB) (p : String) :
    settleDB isAIRoom ⟨quitMatchScores scores p, online⟩ isWin
        (quitMatchDB isAIRoom db p) p =
      quitMatchDB isAIRoom db p p := by
  apply settleDB_preserves_forfeited
  show (getKey? (quitMatchScores scores p) p).getD 0 = FORFEIT_SCORE
  rw [quitMatchScores, getKey?_setKey_self]
  rfl

/-! ## Settlement placement: ordering and counting lemmas -/

instance : IsTotal Int (fun a b => b ≤ a) := ⟨fun a b => le_total b a⟩

instance : IsTrans Int (fun a b => b ≤ a) := ⟨fun _ _ _ h1 h2 => le_trans h2 h1⟩

theorem uniqueScores_mem (ctx : SettleCtx) (s : Int) :
    s ∈ uniqueScores ctx ↔ ∃ p ∈ activePlayers ctx, ctx.playerScore p = s := by
  unfold uniqueScores
  rw [(List.perm_insertionSort _ _).mem_iff, List.mem_dedup, List.mem_map]

theorem uniqueScores_sorted (ctx : SettleCtx) :
    (uniqueScores ctx).Pairwise (fun a b : Int => b < a) := by
  have hs : List.Sorted (fun a b : Int => b ≤ a) (uniqueScores ctx) :=
    List.sorted_insertionSort _ _
  have hn : (uniqueScores ctx).Nodup :=
    (List.perm_insertionSort _ _).nodup_iff.mpr (List.nodup_dedup _)
  exact (List.Pairwise.and hs hn).imp
    (fun h => lt_of_le_of_ne h.1 (Ne.symm h.2))

theorem playerScore_mem_uniqueScores (ctx : SettleCtx) {p : String}
    (hp : p ∈ activePlayers ctx) :
    ctx.playerScore p ∈ uniqueScores ctx :=
  (uniqueScores_mem ctx _).mpr ⟨p, hp, rfl⟩

theorem uniqueScores_length_le (ctx : SettleCtx) :
    (uniqueScores ctx).length ≤ (activePlayers ctx).length := by
  unfold uniqueScores
  rw [(List.perm_insertionSort _ _).length_eq]
  calc ((activePlayers ctx).map ctx.playerScore).dedup.length
      ≤ ((activePlayers ctx).map ctx.playerScore).length :=
        (List.dedup_sublist _).length_le
    _ = (activePlayers ctx).length := List.length_map _ _

theorem countP_or_disjoint {α : Type} (L : List α) (p q : α → Bool)
    (h : ∀ x ∈ L, ¬(p x = true ∧ q x = true)) :
    L.countP (fun x => p x || q x) = L.countP p + L.countP q := by
  induction L with
  | nil => simp
  | cons a l ih =>
    have ha := h a (List.mem_cons_self a l)
    have ih' := ih (fun x hx => h x (List.mem_cons_of_mem _ hx))
    simp only [List.countP_cons, ih']
    cases hpa : p a <;> cases hqa : q a <;>
      simp [hpa, hqa] at ha ⊢ <;> omega

/-- A nonempty strictly descending list whose members are all equal has
exactly one member. -/
theorem pairwise_all_eq_length_le_one {l : List Int} {v : Int}
    (hs : l.Pairwise (fun a b : Int => b < a)) (hall : ∀ s ∈ l, s = v) :
    l.length ≤ 1 := by
  match l with
  | [] => simp
  | [a] => simp
  | a :: b :: t =>
    have hab : b < a := (List.pairwise_cons.mp hs).1 b (List.mem_cons_self _ _)
    have ha := hall a (List.mem_cons_self _ _)
    have hb := hall b (List.mem_cons_of_mem _ (List.mem_cons_self _ _))
    rw [ha, hb] at hab
    exact absurd hab (lt_irrefl v)

/-- Characterization of the `uniqueScores.forEach` fold: when the
remaining score list is strictly descending, contains the player's score,
every already-processed score is above all remaining ones, and the
accumulator counts the already-processed players, the fold assigns this
player the table entry for place `aboveCount + 1` with their tie size —
or `-20` if disconnected/forfeited. -/
theorem assignGroups_getKey (ctx : SettleCtx) (pCount : Nat)
    (l : List Int) :
    ∀ (acc : Nat) (p : String),
      p ∈ activePlayers ctx →
      ctx.playerScore p ∈ l →
      l.Pairwise (fun a b : Int => b < a) →
      (∀ q ∈ activePlayers ctx, ctx.playerScore q ∉ l →
        ∀ s ∈ l, s < ctx.playerScore q) →
      acc = ((activePlayers ctx).filter
        (fun q => !(decide (ctx.playerScore q ∈ l)))).length →
      getKey? (assignGroups ctx pCount l acc) p =
        some (if penalized ctx p then -20
              else assignedLpFor pCount (aboveCount ctx p + 1)
                (tieCount ctx p)
                (decide (aboveCount ctx p + tieCount ctx p = pCount))) := by
  induction l with
  | nil =>
    intro acc p _ hmem _ _ _
    simp at hmem
  | cons s₀ rest ih =>
    intro acc p hp hmem hsort hhigh hacc
    have hrest_lt : ∀ s ∈ rest, s < s₀ := fun s hs =>
      (List.pairwise_cons.mp hsort).1 s hs
    have hs₀_notin : s₀ ∉ rest := fun hin => lt_irrefl s₀ (hrest_lt s₀ hin)
    by_cases hps : ctx.playerScore p = s₀
    · -- p sits in the group processed at this step
      have hacc_above : acc = aboveCount ctx p := by
        rw [hacc]
        unfold aboveCount
        congr 1
        apply List.filter_congr
        intro q hq
        by_cases hql : ctx.playerScore q ∈ s₀ :: rest
        · have hnlt : ¬(ctx.playerScore p < ctx.playerScore q) := by
            rcases List.mem_cons.mp hql with heq | hin
            · rw [hps, heq]
              exact lt_irrefl _
            · have h1 := hrest_lt _ hin
              rw [hps]
              omega
          simp [hql, hnlt]
        · have hlt : ctx.playerScore p < ctx.playerScore q := by
            rw [hps]
            exact hhigh q hq hql s₀ (List.mem_cons_self _ _)
          simp [hql, hlt]
      have htie : (tiedAt ctx s₀).length = tieCount ctx p := by
        unfold tieCount
        rw [hps]
      have hptied : p ∈ tiedAt ctx s₀ := by
        unfold tiedAt
        rw [List.mem_filter]
        exact ⟨hp, by simp [hps]⟩
      show getKey?
        ((tiedAt ctx s₀).map (fun q =>
          (q, if penalized ctx q then -20
              else assignedLpFor pCount (acc + 1) (tiedAt ctx s₀).length
                (decide (acc + (tiedAt ctx s₀).length = pCount)))) ++
          assignGroups ctx pCount rest (acc + (tiedAt ctx s₀).length)) p = _
      rw [getKey?_append_left _ (getKey?_map_pair _ _ _ hptied)]
      rw [hacc_above, htie]
    · -- p sits in a later group
      have hmem' : ctx.playerScore p ∈ rest := by
        rcases List.mem_cons.mp hmem with heq | hin
        · exact absurd heq hps
        · exact hin
      have hnot_tied : p ∉ tiedAt ctx s₀ := by
        unfold tiedAt
        rw [List.mem_filter]
        rintro ⟨_, hq⟩
        simp at hq
        exact hps hq
      have hhigh' : ∀ q ∈ activePlayers ctx, ctx.playerScore q ∉ rest →
          ∀ s ∈ rest, s < ctx.playerScore q := by
        intro q hq hqr s hs
        by_cases hql : ctx.playerScore q ∈ s₀ :: rest
        · rcases List.mem_cons.mp hql with heq | hin
          · rw [heq]
            exact hrest_lt s hs
          · exact absurd hin hqr
        · exact hhigh q hq hql s (List.mem_cons_of_mem _ hs)
      have hpoint : ∀ x ∈ activePlayers ctx,
          (!(decide (ctx.playerScore x ∈ rest))) =
            ((!(decide (ctx.playerScore x ∈ s₀ :: rest))) ||
              (decide (ctx.playerScore x = s₀))) := by
        intro x _
        by_cases hxs : ctx.playerScore x = s₀
        · simp [hxs, hs₀_notin]
        · by_cases hxr : ctx.playerScore x ∈ rest
          · simp [hxs, hxr]
          · simp [hxs, hxr]
      have hdisj : ∀ x ∈ activePlayers ctx,
          ¬((!(decide (ctx.playerScore x ∈ s₀ :: rest))) = true ∧
            (decide (ctx.playerScore x = s₀)) = true) := by
        rintro x _ ⟨h1, h2⟩
        simp only [Bool.not_eq_true', decide_eq_false_iff_not] at h1
        simp only [decide_eq_true_eq] at h2
        exact h1 (by rw [h2]; exact List.mem_cons_self _ _)
      have hacc' : acc + (tiedAt ctx s₀).length =
          ((activePlayers ctx).filter
            (fun q => !(decide (ctx.playerScore q ∈ rest)))).length := by
        rw [hacc]
        unfold tiedAt
        rw [← List.countP_eq_length_filter, ← List.countP_eq_length_filter,
          ← List.countP_eq_length_filter, ← countP_or_disjoint _ _ _ hdisj,
          List.countP_eq_length_filter, List.countP_eq_length_filter,
          List.filter_congr hpoint]
      show getKey?
        ((tiedAt ctx s₀).map (fun q =>
          (q, if penalized ctx q then -20
              else assignedLpFor pCount (acc + 1) (tiedAt ctx s₀).length
                (decide (acc + (tiedAt ctx s₀).length = pCount)))) ++
          assignGroups ctx pCount rest (acc + (tiedAt ctx s₀).length)) p = _
      rw [getKey?_append_right _ (getKey?_map_pair_none _ _ _ hnot_tied)]
      exact ih (acc + (tiedAt ctx s₀).length) p hp hmem'
        (List.pairwise_cons.mp hsort).2 hhigh' hacc'

theorem lpAssignments_getKey (ctx : SettleCtx) (hTie : isTotalTie ctx = false)
    (p : String) (hp : p ∈ activePlayers ctx) :
    getKey? (lpAssignments ctx) p =
      some (if penalized ctx p then -20
            else assignedLpFor (activePlayers ctx).length
              (aboveCount ctx p + 1) (tieCount ctx p)
              (decide (aboveCount ctx p + tieCount ctx p =
                (activePlayers ctx).length))) := by
  unfold lpAssignments
  rw [hTie]
  simp only [Bool.false_eq_true, if_false]
  apply assignGroups_getKey ctx _ _ 0 p hp
  · exact playerScore_mem_uniqueScores ctx hp
  · exact uniqueScores_sorted ctx
  · intro q hq hql
    exact absurd (playerScore_mem_uniqueScores ctx hq) hql
  · symm
    rw [List.length_eq_zero, List.filter_eq_nil_iff]
    intro q hq
    simp [playerScore_mem_uniqueScores ctx hq]

theorem uniqueScores_length_le_one_of_tie_full (ctx : SettleCtx)
    (p : String) (hp : p ∈ activePlayers ctx)
    (h : tieCount ctx p = (activePlayers ctx).length) :
    (uniqueScores ctx).length ≤ 1 := by
  have hall : ∀ q ∈ activePlayers ctx,
      ctx.playerScore q = ctx.playerScore p := by
    unfold tieCount tiedAt at h
    rw [← List.countP_eq_length_filter] at h
    have hcp := List.countP_eq_length.mp h
    intro q hq
    simpa using hcp q hq
  apply pairwise_all_eq_length_le_one (uniqueScores_sorted ctx)
  intro s hs
  obtain ⟨q, hq, hqs⟩ := (uniqueScores_mem ctx s).mp hs
  rw [← hqs]
  exact hall q hq

/-! ## Settlement tie table (claim C1) -/

/-- C1: in a settled non-AI room whose humans are not all tied, every
connected non-forfeiting participant's LP delta follows the tie-adjusted
table — sole 1st `+20`, 1st tie of 2 `+10` each, 1st tie of 3 `+6` each,
sole 2nd `+5` with 4 humans and `0` with 3 humans, and the whole
last-place group `-5` regardless of tie size — while every disconnected
or forfeiting participant receives the flat `-20` regardless of score. -/
theorem settlement_tie_table (ctx : SettleCtx) (p : String)
    (hp : p ∈ activePlayers ctx)
    (hnt : 2 ≤ (uniqueScores ctx).length) :
    (penalized ctx p = true → lpChangeOf ctx p = -20) ∧
    (penalized ctx p = false →
      ((aboveCount ctx p = 0 ∧ tieCount ctx p = 1 →
         lpChangeOf ctx p = 20) ∧
       (aboveCount ctx p = 0 ∧ tieCount ctx p = 2 →
         lpChangeOf ctx p = 10) ∧
       (aboveCount ctx p = 0 ∧ tieCount ctx p = 3 →
         lpChangeOf ctx p = 6) ∧
       (aboveCount ctx p = 1 ∧ tieCount ctx p = 1 ∧
         (activePlayers ctx).length = 4 → lpChangeOf ctx p = 5) ∧
       (aboveCount ctx p = 1 ∧ tieCount ctx p = 1 ∧
         (activePlayers ctx).length = 3 → lpChangeOf ctx p = 0) ∧
       (aboveCount ctx p + tieCount ctx p = (activePlayers ctx).length →
         lpChangeOf ctx p = -5))) := by
  have hTie : isTotalTie ctx = false := by
    unfold isTotalTie
    have hne : ¬((uniqueScores ctx).length = 1) := by omega
    simp [hne]
  have hchar := lpAssignments_getKey ctx hTie p hp
  have hlp : lpChangeOf ctx p =
      (if penalized ctx p then -20
       else assignedLpFor (activePlayers ctx).length (aboveCount ctx p + 1)
         (tieCount ctx p)
         (decide (aboveCount ctx p + tieCount ctx p =
           (activePlayers ctx).length))) := by
    unfold lpChangeOf
    rw [hchar]
    rfl
  have hpc : 2 ≤ (activePlayers ctx).length :=
    le_trans hnt (uniqueScores_length_le ctx)
  constructor
  · intro hpen
    rw [hlp, if_pos hpen]
  · intro hpen
    rw [hlp, if_neg (by simp [hpen])]
    refine ⟨?_, ?_, ?_, ?_, ?_, ?_⟩
    · rintro ⟨ha, ht⟩
      rw [ha, ht]
      have hfalse : ¬(0 + 1 = (activePlayers ctx).length) := by omega
      simp [assignedLpFor, hfalse]
    · rintro ⟨ha, ht⟩
      have hfalse : ¬(0 + 2 = (activePlayers ctx).length) := by
        intro hcon
        have := uniqueScores_length_le_one_of_tie_full ctx p hp (by omega)
        omega
      rw [ha, ht]
      simp [assignedLpFor, hfalse]
    · rintro ⟨ha, ht⟩
      have hfalse : ¬(0 + 3 = (activePlayers ctx).length) := by
        intro hcon
        have := uniqueScores_length_le_one_of_tie_full ctx p hp (by omega)
        omega
      rw [ha, ht]
      simp [assignedLpFor, hfalse]
    · rintro ⟨ha, ht, hc⟩
      rw [ha, ht, hc]
      decide
    · rintro ⟨ha, ht, hc⟩
      rw [ha, ht, hc]
      decide
    · intro hlast
      simp [assignedLpFor, hlast]

/-- C1 witness: on the spec's test vector `[30,30,10,0]` with all four
humans connected, each first-place tied player gets `+10` and the sole
last player gets `-5`. -/
theorem settlement_tie_table_witness :
    lpChangeOf ⟨[("A", 30), ("B", 30), ("C", 10), ("D", 0)],
      fun _ => true⟩ "A" = 10 ∧
    lpChangeOf ⟨[("A", 30), ("B", 30), ("C", 10), ("D", 0)],
      fun _ => true⟩ "D" = -5 := by
  constructor
  · exact ((settlement_tie_table
      ⟨[("A", 30), ("B", 30), ("C", 10), ("D", 0)], fun _ => true⟩ "A"
      (by decide) (by decide)).2 (by decide)).2.1 ⟨by decide, by decide⟩
  · exact ((settlement_tie_table
      ⟨[("A", 30), ("B", 30), ("C", 10), ("D", 0)], fun _ => true⟩ "D"
      (by decide) (by decide)).2 (by decide)).2.2.2.2.2 (by decide)

/-! ## Total tie (claim C2) -/

theorem lpAssignments_totalTie (ctx : SettleCtx) (h : isTotalTie ctx = true)
    (p : String) (hp : p ∈ activePlayers ctx) :
    getKey? (lpAssignments ctx) p =
      some (if penalized ctx p then -20 else 0) := by
  unfold lpAssignments
  rw [h]
  simp only [if_true]
  exact getKey?_map_pair _ _ _ hp

/-- C2: when every human's score in a non-AI room is exactly equal and
more than one human is still connected and non-forfeiting, every
connected non-forfeiting participant gets an LP delta of exactly 0,
while every disconnected or forfeiting participant still gets `-20`. -/
theorem settlement_total_tie (ctx : SettleCtx)
    (hall : ∀ q ∈ activePlayers ctx, ∀ r ∈ activePlayers ctx,
      ctx.playerScore q = ctx.playerScore r)
    (hvalid : 1 < validPlayersCount ctx)
    (p : String) (hp : p ∈ activePlayers ctx) :
    lpChangeOf ctx p = if penalized ctx p then -20 else 0 := by
  have hone : (uniqueScores ctx).length = 1 := by
    have hle : (uniqueScores ctx).length ≤ 1 := by
      apply pairwise_all_eq_length_le_one (uniqueScores_sorted ctx)
        (v := ctx.playerScore p)
      intro s hs
      obtain ⟨q, hq, hqs⟩ := (uniqueScores_mem ctx s).mp hs
      rw [← hqs]
      exact hall q hq p hp
    have hge : 0 < (uniqueScores ctx).length :=
      List.length_pos.mpr (List.ne_nil_of_mem
        (playerScore_mem_uniqueScores ctx hp))
    omega
  have hTie : isTotalTie ctx = true := by
    unfold isTotalTie
    simp [hone, hvalid]
  unfold lpChangeOf
  rw [lpAssignments_totalTie ctx hTie p hp]
  rfl

/-- C2 witness: two connected humans tied at 5 points each both get a
zero LP delta. -/
theorem settlement_total_tie_witness :
    lpChangeOf ⟨[("A", 5), ("B", 5)], fun _ => true⟩ "A" = 0 := by
  have h := settlement_total_tie ⟨[("A", 5), ("B", 5)], fun _ => true⟩
    (by decide) (by decide) "A" (by decide)
  rw [h]
  decide

end WordGame
